import Mathlib

/-!
Verification of tsc, the calibrated cycle counter of `include/Tsc.hpp`.

A shallow embedding of `tsc::TscImpl<Traits>`.

* `std::uint64_t` values are natural numbers below `2 ^ 64`; unsigned
  arithmetic wraps modulo `2 ^ 64` (`subU64`, `mulU64`).
* `std::int64_t` values are integers in `[-2 ^ 63, 2 ^ 63)`; the conversions
  between the two are `toI64` and `toU64`.
* The hardware counter and the reference clock are read sequences
  (`Env.tsc`, `Env.clock`); the number of reads consumed so far is the
  state `Reads`.
* `double` values are rationals.  Every place where the code rounds to
  binary64 (an integer converted to `double`, a `double` division) applies
  the rounding function `Env.round`, which is left arbitrary.
* Loops carry a fuel argument; running out of fuel is `none`.
-/

namespace tsc

/-- Conversion of an unsigned 64-bit value to `std::int64_t` (two's complement). -/
def toI64 (n : Nat) : Int :=
  if n % 2 ^ 64 < 2 ^ 63 then ((n % 2 ^ 64 : Nat) : Int)
  else ((n % 2 ^ 64 : Nat) : Int) - 2 ^ 64

/-- Conversion of a signed value to `std::uint64_t` (reduction modulo `2 ^ 64`). -/
def toU64 (i : Int) : Nat :=
  (i % 2 ^ 64).toNat

/-- Subtraction of two `std::uint64_t` values. -/
def subU64 (a b : Nat) : Nat :=
  (a % 2 ^ 64 + (2 ^ 64 - b % 2 ^ 64)) % 2 ^ 64

/-- Multiplication of two `std::uint64_t` values. -/
def mulU64 (a b : Nat) : Nat :=
  (a * b) % 2 ^ 64

/-- The template parameter `Traits`: the two sample counts and the rate
measurement window (a `std::chrono::milliseconds` count). -/
structure Traits where
  kCostMeasurements : Nat
  kRateMeasurements : Nat
  kRateMeasureDuration : Int
  deriving DecidableEq

/-- The default traits `struct TscTraits`. -/
def TscTraits : Traits :=
  { kCostMeasurements := 101, kRateMeasurements := 11, kRateMeasureDuration := 20 }

/-- The outside world of one run: `tsc i` is what the `i`-th `__rdtsc()`
returns, `clock i` is the `i`-th `std::chrono::system_clock::now()` as a
count of nanoseconds, and `round` is rounding to the nearest `double`. -/
structure Env where
  tsc : Nat → Nat
  clock : Nat → Int
  round : ℚ → ℚ

/-- How many counter reads and clock reads have been made so far. -/
structure Reads where
  tscIdx : Nat
  clkIdx : Nat
  deriving DecidableEq

/-- The fields of `class TscImpl`. -/
structure TscImpl where
  _rdtscCyclesCost : Nat
  _realClockCyclesCost : Nat
  _cpuClockRate : ℚ
  deriving DecidableEq

/-- Embedding of `TscImpl::now`: one `__rdtsc()` read. -/
def now (env : Env) (s : Reads) : Nat × Reads :=
  (env.tsc s.tscIdx % 2 ^ 64, { s with tscIdx := s.tscIdx + 1 })

/-- One `std::chrono::system_clock::now()` read. -/
def clockNow (env : Env) (s : Reads) : Int × Reads :=
  (env.clock s.clkIdx, { s with clkIdx := s.clkIdx + 1 })

/-- Embedding of `TscImpl::duration`:
`return finish - start - _rdtscCyclesCost;` computed in `std::uint64_t` and
converted to the return type `std::int64_t`. -/
def duration (rdtscCyclesCost : Nat) (start finish : Nat) : Int :=
  toI64 (subU64 (subU64 finish start) rdtscCyclesCost)

/-- Ascending `std::sort` of a `std::vector<std::uint64_t>`. -/
def sortU64 (samples : List Nat) : List Nat :=
  samples.insertionSort (· ≤ ·)

/-- Ascending `std::sort` of a `std::vector<double>`. -/
def sortDouble (samples : List ℚ) : List ℚ :=
  samples.insertionSort (· ≤ ·)

/-- The `while` loop of `TscImpl::calibrateRdtscCost`. -/
def rdtscCostLoop (T : Traits) (env : Env) :
    Nat → Reads → Nat → List Nat → Option (List Nat × Reads)
  | 0, _, _, _ => none
  | fuel + 1, s, lastRdtsc, samples =>
    if samples.length < T.kCostMeasurements then
      let (t, s1) := now env s
      let duration : Int := toI64 (subU64 t lastRdtsc)
      let (l, s2) := now env s1
      rdtscCostLoop T env fuel s2 l (samples ++ [toU64 duration])
    else some (samples, s)

/-- Embedding of `TscImpl::calibrateRdtscCost`; the result is the new value
of `_rdtscCyclesCost`.  Indexing the sorted vector out of range is `none`. -/
def calibrateRdtscCost (T : Traits) (env : Env) (fuel : Nat) (s : Reads) :
    Option (Nat × Reads) :=
  let (lastRdtsc, s0) := now env s
  match rdtscCostLoop T env fuel s0 lastRdtsc [] with
  | none => none
  | some (samples, s1) =>
    match (sortU64 samples)[T.kCostMeasurements / 2]? with
    | none => none
    | some cost => some (cost, s1)

/-- The `while` loop of `TscImpl::calibrateRealClockCost`. -/
def realClockCostLoop (T : Traits) (env : Env) (rdtscCyclesCost : Nat) :
    Nat → Reads → List Nat → Option (List Nat × Reads)
  | 0, _, _ => none
  | fuel + 1, s, samples =>
    if samples.length < T.kCostMeasurements then
      let (startTimepoint, s1) := clockNow env s
      let (startTsc, s2) := now env s1
      let (finishTimepoint, s3) := clockNow env s2
      let (finishTsc, s4) := now env s3
      if finishTimepoint ≤ startTimepoint then
        realClockCostLoop T env rdtscCyclesCost fuel s4 samples
      else
        let duration : Int :=
          toI64 (subU64 (subU64 finishTsc startTsc) (mulU64 rdtscCyclesCost 2))
        realClockCostLoop T env rdtscCyclesCost fuel s4 (samples ++ [toU64 duration])
    else some (samples, s)

/-- Embedding of `TscImpl::calibrateRealClockCost`; the result is the new
value of `_realClockCyclesCost`. -/
def calibrateRealClockCost (T : Traits) (env : Env) (rdtscCyclesCost : Nat)
    (fuel : Nat) (s : Reads) : Option (Nat × Reads) :=
  match realClockCostLoop T env rdtscCyclesCost fuel s [] with
  | none => none
  | some (samples, s1) =>
    match (sortU64 samples)[T.kCostMeasurements / 2]? with
    | none => none
    | some cost => some (cost, s1)

/-- The rate sample pushed by `TscImpl::calibrateCpuClockRate`:
`static_cast<double>(duration(tscStart, tscFinish) - _realClockCyclesCost) /
chronoDuration.count()`.  The subtraction mixes `std::int64_t` with
`std::uint64_t` and is therefore unsigned. -/
def rateSample (env : Env) (rdtscCyclesCost realClockCyclesCost : Nat)
    (tscStart tscFinish : Nat) (chronoDuration : Int) : ℚ :=
  let cycles : Nat :=
    subU64 (toU64 (duration rdtscCyclesCost tscStart tscFinish)) realClockCyclesCost
  env.round (env.round (cycles : ℚ) / env.round (chronoDuration : ℚ))

/-- The inner `while (true)` loop of `TscImpl::calibrateCpuClockRate`.  The
result is the sample it pushed, if any, when it left through a `break`. -/
def pollLoop (T : Traits) (env : Env) (rdtscCyclesCost realClockCyclesCost : Nat)
    (chronoStart : Int) (tscStart : Nat) : Nat → Reads → Option (Option ℚ × Reads)
  | 0, _ => none
  | fuel + 1, s =>
    let (chronoLast, s1) := clockNow env s
    if chronoLast ≤ chronoStart then some (none, s1)
    else
      let chronoDuration : Int := chronoLast - chronoStart
      if T.kRateMeasureDuration * 1000000 ≤ chronoDuration then
        let (tscFinish, s2) := now env s1
        some (some (rateSample env rdtscCyclesCost realClockCyclesCost
          tscStart tscFinish chronoDuration), s2)
      else pollLoop T env rdtscCyclesCost realClockCyclesCost chronoStart tscStart fuel s1

/-- The outer `while` loop of `TscImpl::calibrateCpuClockRate`. -/
def rateLoop (T : Traits) (env : Env) (rdtscCyclesCost realClockCyclesCost : Nat) :
    Nat → Reads → List ℚ → Option (List ℚ × Reads)
  | 0, _, _ => none
  | fuel + 1, s, samples =>
    if samples.length < T.kRateMeasurements then
      let (chronoStart, s1) := clockNow env s
      let (tscStart, s2) := now env s1
      match pollLoop T env rdtscCyclesCost realClockCyclesCost chronoStart tscStart fuel s2 with
      | none => none
      | some (none, s3) =>
        rateLoop T env rdtscCyclesCost realClockCyclesCost fuel s3 samples
      | some (some sample, s3) =>
        rateLoop T env rdtscCyclesCost realClockCyclesCost fuel s3 (samples ++ [sample])
    else some (samples, s)

/-- Embedding of `TscImpl::calibrateCpuClockRate`; the result is the new
value of `_cpuClockRate`. -/
def calibrateCpuClockRate (T : Traits) (env : Env) (rdtscCyclesCost realClockCyclesCost : Nat)
    (fuel : Nat) (s : Reads) : Option (ℚ × Reads) :=
  match rateLoop T env rdtscCyclesCost realClockCyclesCost fuel s [] with
  | none => none
  | some (samples, s1) =>
    match (sortDouble samples)[T.kRateMeasurements / 2]? with
    | none => none
    | some rate => some (rate, s1)

/-- Embedding of `TscImpl::calibrate` (the whole of the constructor): the
three stages in sequence, each using the fields set by the ones before. -/
def calibrate (T : Traits) (env : Env) (fuel : Nat) (s : Reads) : Option (TscImpl × Reads) :=
  match calibrateRdtscCost T env fuel s with
  | none => none
  | some (rdtscCyclesCost, s1) =>
    match calibrateRealClockCost T env rdtscCyclesCost fuel s1 with
    | none => none
    | some (realClockCyclesCost, s2) =>
      match calibrateCpuClockRate T env rdtscCyclesCost realClockCyclesCost fuel s2 with
      | none => none
      | some (cpuClockRate, s3) =>
        some ({ _rdtscCyclesCost := rdtscCyclesCost,
                _realClockCyclesCost := realClockCyclesCost,
                _cpuClockRate := cpuClockRate }, s3)

/-- Embedding of `TscImpl::toNanos`:
`std::chrono::nanoseconds(static_cast<std::uint64_t>(duration / cpuClockRate()))`.
The quotient is a `double`; the cast truncates it toward zero and is
undefined (`none`) when the truncated value is not a `std::uint64_t` or the
divisor is zero; the count of `std::chrono::nanoseconds` is a signed 64-bit
integer. -/
def toNanos (env : Env) (self : TscImpl) (duration : Int) : Option Int :=
  if self._cpuClockRate = 0 then none
  else
    let q : ℚ := env.round (env.round (duration : ℚ) / self._cpuClockRate)
    let t : Int := if 0 ≤ q then ⌊q⌋ else ⌈q⌉
    if 0 ≤ t ∧ t < 2 ^ 64 then some (toI64 t.toNat) else none

/-- A run with a steady machine: the counter advances by ten per read and the
clock by the whole measurement window per read; arithmetic is exact. -/
def steadyEnv : Env :=
  { tsc := fun i => 10 * i, clock := fun i => 20000000 * (i : Int), round := fun q => q }

/-- A run on the default traits in which back-to-back counter reads are 10
ticks apart during stage 1, the two counter reads of a stage 2 round are 50
ticks apart, a stage 3 estimate spans 60000040 ticks and one window of 20 ms,
and reads made after calibration are 3 ticks apart. -/
def sampleEnv : Env :=
  { tsc := fun i =>
      if i < 203 then 10 * i
      else if i < 405 then 2030 + 50 * (i - 203)
      else if i < 427 then 12130 + 60000040 * (i - 405)
      else 1320013010 + 3 * (i - 427),
    clock := fun i =>
      if i < 202 then 100 * (i : Int) else 20200 + 20000000 * ((i : Int) - 202),
    round := fun q => q }

/-- A run whose counter never advances (every read returns 0, a
non-decreasing sequence), the clock advancing by one window per read. -/
def frozenEnv : Env :=
  { tsc := fun _ => 0, clock := fun i => 20000000 * (i : Int), round := fun q => q }

/-- A run whose second clock reading repeats the first (reads 0 and 1 are
both 100 ns); the third is one window later, the fourth half a window after
that, and from then on each read is one window after the one before. -/
def stallEnv : Env :=
  { tsc := fun i => if i ≤ 1 then 60000040 * i else 100000080 + 60000040 * (i - 2),
    clock := fun i =>
      if i ≤ 1 then 100
      else if i = 2 then 20000100
      else if i = 3 then 30000100
      else 40000100 + 20000000 * ((i : Int) - 4),
    round := fun q => q }

/-- A run whose clock steps back: read 1 is 5 ms after read 0, read 2 is
back at the time of read 0, and the clock advances by one window per read
afterwards. -/
def backstepEnv : Env :=
  { tsc := fun i => 1000 * i,
    clock := fun i =>
      if i = 1 then 5000100 else if i ≤ 2 then 100 else 100 + 20000000 * ((i : Int) - 2),
    round := fun q => q }

/-- The `i`-th delta of `calibrateRdtscCost` started after `base` counter
reads: the difference of counter reads `base + 2 * i + 1` and `base + 2 * i`. -/
def rdtscDelta (env : Env) (base i : Nat) : Nat :=
  subU64 (env.tsc (base + 2 * i + 1) % 2 ^ 64) (env.tsc (base + 2 * i) % 2 ^ 64)

/-- Whether round `j` of `calibrateRealClockCost`, started at `s`, saw the
clock advance: its readings satisfy `T1 < T2`. -/
def roundAccepted (env : Env) (s : Reads) (j : Nat) : Bool :=
  decide (env.clock (s.clkIdx + 2 * j) < env.clock (s.clkIdx + 2 * j + 1))

/-- The candidate `(C2 - C1) - 2 * cost` of round `j` of
`calibrateRealClockCost`, in 64-bit unsigned arithmetic. -/
def roundCandidate (env : Env) (rdtscCyclesCost : Nat) (s : Reads) (j : Nat) : Nat :=
  subU64 (subU64 (env.tsc (s.tscIdx + 2 * j + 1) % 2 ^ 64) (env.tsc (s.tscIdx + 2 * j) % 2 ^ 64))
    (mulU64 rdtscCyclesCost 2)

/-- The candidates of the accepted rounds among the first `m` rounds, in order. -/
def acceptedCandidates (env : Env) (rdtscCyclesCost : Nat) (s : Reads) (m : Nat) : List Nat :=
  ((List.range m).filter (roundAccepted env s)).map (roundCandidate env rdtscCyclesCost s)

/-- What one recorded rate sample of `calibrateCpuClockRate` is: there are a
start clock read `iStart`, a later poll `iPoll` and a start counter read
`jStart` such that every poll in between fell strictly inside the window,
the poll `iPoll` is later than the start by at least the window, and `x` is
the `double` quotient of `finish - start - rdtscCyclesCost -
realClockCyclesCost` (modulo `2 ^ 64`, `finish` being the counter read after
`jStart`) by the elapsed nanoseconds. -/
def IsRateSample (T : Traits) (env : Env) (rdtscCyclesCost realClockCyclesCost : Nat)
    (x : ℚ) : Prop :=
  ∃ (iStart iPoll jStart cycles : Nat),
    iStart < iPoll ∧
    (∀ p, iStart < p → p < iPoll →
      env.clock iStart < env.clock p ∧
      env.clock p - env.clock iStart < T.kRateMeasureDuration * 1000000) ∧
    env.clock iStart < env.clock iPoll ∧
    T.kRateMeasureDuration * 1000000 ≤ env.clock iPoll - env.clock iStart ∧
    (cycles : Int) =
      (((env.tsc (jStart + 1) % 2 ^ 64 : Nat) : Int) - ((env.tsc jStart % 2 ^ 64 : Nat) : Int)
        - rdtscCyclesCost - realClockCyclesCost) % 2 ^ 64 ∧
    x = env.round (env.round (cycles : ℚ) /
      env.round ((env.clock iPoll - env.clock iStart : Int) : ℚ))

/-- One rate estimate of `calibrateCpuClockRate` as it shows in the read
sequences: how many times the clock was polled after the start readings, and
whether the estimate ended by recording a sample (otherwise it was left
without one). -/
structure Estimate where
  polls : Nat
  recorded : Bool

/-- The reads made once an estimate begun after the reads `st` is over: the
start clock read and the polls, the start counter read and, when a sample
was recorded, the finish counter read. -/
def estimateEnd (st : Reads) (e : Estimate) : Reads :=
  { tscIdx := st.tscIdx + (if e.recorded = true then 2 else 1),
    clkIdx := st.clkIdx + e.polls + 1 }

/-- What the clock readings of an estimate begun after the reads `st` are:
the start time is clock read `st.clkIdx`; there is at least one poll; every
poll but the last is later than the start by less than the window; the last
poll, clock read `st.clkIdx + e.polls`, is later than the start by at least
the window when a sample was recorded, and not later than the start
otherwise. -/
def EstimateOk (T : Traits) (env : Env) (st : Reads) (e : Estimate) : Prop :=
  1 ≤ e.polls ∧
  (∀ p, 1 ≤ p → p < e.polls →
    env.clock st.clkIdx < env.clock (st.clkIdx + p) ∧
    env.clock (st.clkIdx + p) - env.clock st.clkIdx < T.kRateMeasureDuration * 1000000) ∧
  (if e.recorded = true then
    env.clock st.clkIdx < env.clock (st.clkIdx + e.polls) ∧
    T.kRateMeasureDuration * 1000000 ≤ env.clock (st.clkIdx + e.polls) - env.clock st.clkIdx
  else env.clock (st.clkIdx + e.polls) ≤ env.clock st.clkIdx)

/-- The counter ticks of an estimate begun after the reads `st`: the integer
`finish - start - rdtscCyclesCost - realClockCyclesCost` reduced modulo
`2 ^ 64`, where `start` is counter read `st.tscIdx` and `finish` is the
counter read after it. -/
def estimateCycles (env : Env) (rdtscCyclesCost realClockCyclesCost : Nat) (st : Reads) : Nat :=
  ((((env.tsc (st.tscIdx + 1) % 2 ^ 64 : Nat) : Int) - ((env.tsc st.tscIdx % 2 ^ 64 : Nat) : Int)
    - (rdtscCyclesCost : Int) - (realClockCyclesCost : Int)) % 2 ^ 64).toNat

/-- The sample of a recorded estimate begun after the reads `st`: the
`double` quotient of its counter ticks by the nanoseconds elapsed between its
start clock read and its last poll. -/
def estimateSample (env : Env) (rdtscCyclesCost realClockCyclesCost : Nat) (st : Reads)
    (e : Estimate) : ℚ :=
  env.round (env.round ((estimateCycles env rdtscCyclesCost realClockCyclesCost st : Nat) : ℚ) /
    env.round ((env.clock (st.clkIdx + e.polls) - env.clock st.clkIdx : Int) : ℚ))

/-- A sequence of estimates made one after the other from the reads `st`
has the clock readings `EstimateOk` asks of each. -/
def TraceOk (T : Traits) (env : Env) : Reads → List Estimate → Prop
  | _, [] => True
  | st, e :: es => EstimateOk T env st e ∧ TraceOk T env (estimateEnd st e) es

/-- The reads made after a sequence of estimates begun after the reads `st`. -/
def traceEnd : Reads → List Estimate → Reads
  | st, [] => st
  | st, e :: es => traceEnd (estimateEnd st e) es

/-- The samples of the recorded estimates of a sequence begun after the
reads `st`, in order. -/
def traceSamples (env : Env) (rdtscCyclesCost realClockCyclesCost : Nat) :
    Reads → List Estimate → List ℚ
  | _, [] => []
  | st, e :: es =>
    (if e.recorded = true then [estimateSample env rdtscCyclesCost realClockCyclesCost st e]
      else []) ++
      traceSamples env rdtscCyclesCost realClockCyclesCost (estimateEnd st e) es

/-- The inner loop of `calibrateCpuClockRate` as the specification words it,
not as the code has it: a reading not later than the start is "not yet
elapsed" and polling continues with the same start time and the same start
counter reading.  It differs from `pollLoop` in that branch only. -/
def pollLoopContinuing (T : Traits) (env : Env) (rdtscCyclesCost realClockCyclesCost : Nat)
    (chronoStart : Int) (tscStart : Nat) : Nat → Reads → Option (Option ℚ × Reads)
  | 0, _ => none
  | fuel + 1, s =>
    let (chronoLast, s1) := clockNow env s
    if chronoLast ≤ chronoStart then
      pollLoopContinuing T env rdtscCyclesCost realClockCyclesCost chronoStart tscStart fuel s1
    else
      let chronoDuration : Int := chronoLast - chronoStart
      if T.kRateMeasureDuration * 1000000 ≤ chronoDuration then
        let (tscFinish, s2) := now env s1
        some (some (rateSample env rdtscCyclesCost realClockCyclesCost
          tscStart tscFinish chronoDuration), s2)
      else
        pollLoopContinuing T env rdtscCyclesCost realClockCyclesCost chronoStart tscStart fuel s1

set_option maxRecDepth 1000000

/-! ### Machine integers -/

theorem toI64_of_lt {n : Nat} (h : n < 2 ^ 63) : toI64 n = n := by
  unfold toI64
  have h1 : n % 2 ^ 64 = n := Nat.mod_eq_of_lt (by omega)
  rw [h1, if_pos h]

theorem toU64_toI64 {n : Nat} (h : n < 2 ^ 64) : toU64 (toI64 n) = n := by
  unfold toU64 toI64
  have h1 : n % 2 ^ 64 = n := Nat.mod_eq_of_lt h
  rw [h1]
  split <;> omega

theorem subU64_lt (a b : Nat) : subU64 a b < 2 ^ 64 :=
  Nat.mod_lt _ (by norm_num)

theorem subU64_cast (a b : Nat) :
    ((subU64 a b : Nat) : Int) = ((a : Int) - b) % 2 ^ 64 := by
  unfold subU64
  omega

theorem subU64_subU64_cast (a b c : Nat) :
    ((subU64 (subU64 a b) c : Nat) : Int) = ((a : Int) - b - c) % 2 ^ 64 := by
  unfold subU64
  omega

theorem toI64_cast_cases (n : Nat) (h : n < 2 ^ 64) :
    toI64 n = (if (n : Int) < 2 ^ 63 then (n : Int) else (n : Int) - 2 ^ 64) := by
  unfold toI64
  have h1 : n % 2 ^ 64 = n := Nat.mod_eq_of_lt h
  rw [h1]
  split <;> split <;> omega

/-! ### `duration` -/

theorem duration_wrapped (k start finish : Nat) :
    duration k start finish =
      (if ((finish : Int) - start - k) % 2 ^ 64 < 2 ^ 63
        then ((finish : Int) - start - k) % 2 ^ 64
        else ((finish : Int) - start - k) % 2 ^ 64 - 2 ^ 64) := by
  have h := subU64_subU64_cast finish start k
  have hc := toI64_cast_cases _ (subU64_lt (subU64 finish start) k)
  unfold duration
  rw [hc, h]

/-- C1: `duration(start, finish)` is `finish - start - k` computed modulo
`2 ^ 64` and reinterpreted as a signed 64-bit integer, for every counter-read
cost `k` and all timepoints; the function is total, so no input is
rejected. -/
theorem duration_eq_wrapped_difference (k start finish : Nat) :
    duration k start finish =
        (if ((finish : Int) - start - k) % 2 ^ 64 < 2 ^ 63
          then ((finish : Int) - start - k) % 2 ^ 64
          else ((finish : Int) - start - k) % 2 ^ 64 - 2 ^ 64) ∧
      (-2 ^ 63 ≤ duration k start finish ∧ duration k start finish < 2 ^ 63) ∧
      (duration k start finish - ((finish : Int) - start - k)) % 2 ^ 64 = 0 := by
  have h := duration_wrapped k start finish
  refine ⟨h, ?_, ?_⟩
  · rw [h]; split <;> omega
  · rw [h]; split <;> omega

/-- C10: with cost `k < 2 ^ 63` and timepoints `a ≤ b` less than `2 ^ 63`
apart, `duration(a, b)` is negative exactly when `b - a < k`, and
`duration(a, a) = -k`. -/
theorem duration_neg_iff (k a b : Nat) (hk : k < 2 ^ 63) (hab : a ≤ b)
    (hd : b - a < 2 ^ 63) :
    (duration k a b < 0 ↔ b - a < k) ∧ duration k a a = -(k : Int) := by
  have h1 := duration_wrapped k a b
  have h2 := duration_wrapped k a a
  constructor
  · rw [h1]; split <;> omega
  · rw [h2]; split <;> omega

/-- Witness of C10: cost `10`, reads at `5` and `8`. -/
theorem duration_neg_iff_witness :
    (10 < 2 ^ 63 ∧ 5 ≤ 8 ∧ 8 - 5 < 2 ^ 63) ∧
      ((duration 10 5 8 < 0 ↔ 8 - 5 < 10) ∧ duration 10 5 5 = -((10 : Nat) : Int)) :=
  ⟨by decide, duration_neg_iff 10 5 8 (by decide) (by decide) (by decide)⟩

/-- C2 (amended): for timepoints `a ≤ b` at least the counter-read cost `k`
apart, and with `b - a - k < 2 ^ 63`, `duration(a, b)` is `b - a - k`, which is
not negative. -/
theorem duration_nonneg_of_cost_le (k a b : Nat) (hab : a ≤ b)
    (hk : k ≤ b - a) (hd : b - a - k < 2 ^ 63) :
    0 ≤ duration k a b ∧ duration k a b = ((b - a - k : Nat) : Int) := by
  have h1 := duration_wrapped k a b
  rw [h1]
  split <;> omega

/-- Witness of C2 (amended): cost `10`, reads at `5` and `25`. -/
theorem duration_nonneg_of_cost_le_witness :
    (5 ≤ 25 ∧ 10 ≤ 25 - 5 ∧ 25 - 5 - 10 < 2 ^ 63) ∧
      (0 ≤ duration 10 5 25 ∧ duration 10 5 25 = ((25 - 5 - 10 : Nat) : Int)) :=
  ⟨by decide, duration_nonneg_of_cost_le 10 5 25 (by decide) (by decide) (by decide)⟩

/-! ### Sorting -/

theorem sortU64_sorted (l : List Nat) : (sortU64 l).Sorted (· ≤ ·) :=
  List.sorted_insertionSort _ l

theorem sortU64_perm (l : List Nat) : (sortU64 l).Perm l :=
  List.perm_insertionSort _ l

theorem sortU64_length (l : List Nat) : (sortU64 l).length = l.length :=
  List.length_insertionSort _ l

theorem sortU64_median {l : List Nat} {n : Nat} (hn : 0 < n) (hl : l.length = n) :
    ∃ cost, (sortU64 l)[n / 2]? = some cost := by
  have h : n / 2 < (sortU64 l).length := by
    rw [sortU64_length, hl]; omega
  exact ⟨(sortU64 l)[n / 2], List.getElem?_eq_getElem h⟩

/-! ### Stage 1: `calibrateRdtscCost` -/

theorem rdtscCostLoop_run (T : Traits) (env : Env) (base clk : Nat) :
    ∀ (m fuel i : Nat), i + m = T.kCostMeasurements → m < fuel →
      rdtscCostLoop T env fuel ⟨base + 2 * i + 1, clk⟩ (env.tsc (base + 2 * i) % 2 ^ 64)
          ((List.range i).map (rdtscDelta env base)) =
        some ((List.range T.kCostMeasurements).map (rdtscDelta env base),
          ⟨base + 2 * T.kCostMeasurements + 1, clk⟩) := by
  intro m
  induction m with
  | zero =>
    intro fuel i hi hfuel
    obtain ⟨f, rfl⟩ : ∃ f, fuel = f + 1 := ⟨fuel - 1, by omega⟩
    have hi2 : i = T.kCostMeasurements := by omega
    subst hi2
    simp [rdtscCostLoop]
  | succ m ih =>
    intro fuel i hi hfuel
    obtain ⟨f, rfl⟩ : ∃ f, fuel = f + 1 := ⟨fuel - 1, by omega⟩
    have hlt : i < T.kCostMeasurements := by omega
    have hstep := ih f (i + 1) (by omega) (by omega)
    have hsample : toU64 (toI64 (subU64 (env.tsc (base + 2 * i + 1) % 2 ^ 64)
        (env.tsc (base + 2 * i) % 2 ^ 64))) = rdtscDelta env base i := by
      rw [toU64_toI64 (subU64_lt _ _)]; rfl
    have hidx : base + 2 * i + 1 + 1 = base + 2 * (i + 1) := by omega
    simp only [rdtscCostLoop, now, List.length_map, List.length_range, hlt, if_true, hsample,
      hidx]
    rw [List.range_succ, List.map_append] at hstep
    exact hstep

/-- C4: started with more fuel than `kCostMeasurements` (which is positive),
`calibrateRdtscCost` returns; it collected exactly `kCostMeasurements`
deltas, the `i`-th being the difference modulo `2 ^ 64` of the counter reads
`2 * i + 1` and `2 * i` of the stage (two consecutive reads), and the cost it
returns is the element at index `kCostMeasurements / 2` of the ascending
sorted arrangement of those deltas. -/
theorem calibrateRdtscCost_median (T : Traits) (env : Env) (s : Reads) (fuel : Nat)
    (hN : 0 < T.kCostMeasurements) (hfuel : T.kCostMeasurements < fuel) :
    ∃ (deltas sorted : List Nat) (cost : Nat),
      rdtscCostLoop T env fuel (now env s).2 (now env s).1 [] =
        some (deltas, ⟨s.tscIdx + 2 * T.kCostMeasurements + 1, s.clkIdx⟩) ∧
      deltas.length = T.kCostMeasurements ∧
      (∀ i, i < T.kCostMeasurements →
        deltas[i]? = some (subU64 (env.tsc (s.tscIdx + 2 * i + 1) % 2 ^ 64)
          (env.tsc (s.tscIdx + 2 * i) % 2 ^ 64))) ∧
      sorted.Sorted (· ≤ ·) ∧ sorted.Perm deltas ∧
      sorted[T.kCostMeasurements / 2]? = some cost ∧
      calibrateRdtscCost T env fuel s =
        some (cost, ⟨s.tscIdx + 2 * T.kCostMeasurements + 1, s.clkIdx⟩) := by
  have hrun := rdtscCostLoop_run T env s.tscIdx s.clkIdx T.kCostMeasurements fuel 0
    (by omega) hfuel
  simp only [Nat.mul_zero, Nat.add_zero, List.range_zero, List.map_nil] at hrun
  have hlen : ((List.range T.kCostMeasurements).map (rdtscDelta env s.tscIdx)).length =
      T.kCostMeasurements := by simp
  obtain ⟨cost, hcost⟩ := sortU64_median hN hlen
  refine ⟨_, sortU64 _, cost, ?_, hlen, ?_, sortU64_sorted _, sortU64_perm _, hcost, ?_⟩
  · simpa [now] using hrun
  · intro i hi
    simp [List.getElem?_map, List.getElem?_range hi, rdtscDelta]
  · simp only [calibrateRdtscCost, now]
    rw [hrun]
    simp only [hcost]

/-! ### Stage 2: `calibrateRealClockCost` -/

theorem roundCandidate_eq (env : Env) (k : Nat) (s : Reads) (j : Nat) :
    roundCandidate env k s j =
      ((((env.tsc (s.tscIdx + 2 * j + 1) % 2 ^ 64 : Nat) : Int) -
        ((env.tsc (s.tscIdx + 2 * j) % 2 ^ 64 : Nat) : Int) - 2 * (k : Int)) % 2 ^ 64).toNat := by
  unfold roundCandidate subU64 mulU64
  omega

theorem acceptedCandidates_succ (env : Env) (k : Nat) (s : Reads) (m : Nat) :
    acceptedCandidates env k s (m + 1) =
      acceptedCandidates env k s m ++
        (if roundAccepted env s m then [roundCandidate env k s m] else []) := by
  unfold acceptedCandidates
  rw [List.range_succ, List.filter_append, List.map_append]
  by_cases h : roundAccepted env s m = true <;> simp [List.filter, h]

theorem acceptedCandidates_length_mono (env : Env) (k : Nat) (s : Reads) {i j : Nat}
    (h : i ≤ j) :
    (acceptedCandidates env k s i).length ≤ (acceptedCandidates env k s j).length := by
  induction j with
  | zero =>
    have : i = 0 := by omega
    subst this; exact Nat.le_refl _
  | succ j ih =>
    rcases Nat.lt_or_ge i (j + 1) with hlt | hge
    · have := ih (by omega)
      rw [acceptedCandidates_succ, List.length_append]
      omega
    · have : i = j + 1 := by omega
      subst this; exact Nat.le_refl _

theorem realClockCostLoop_rounds (T : Traits) (env : Env) (k : Nat) (s : Reads) :
    ∀ (m fuel : Nat),
      (∀ j, j < m → (acceptedCandidates env k s j).length < T.kCostMeasurements) →
      realClockCostLoop T env k (fuel + m) s [] =
        realClockCostLoop T env k fuel ⟨s.tscIdx + 2 * m, s.clkIdx + 2 * m⟩
          (acceptedCandidates env k s m) := by
  intro m
  induction m with
  | zero =>
    intro fuel _
    simp [acceptedCandidates]
  | succ m ih =>
    intro fuel h
    have h1 := ih (fuel + 1) (fun j hj => h j (by omega))
    have hfuel : fuel + (m + 1) = fuel + 1 + m := by omega
    rw [hfuel, h1]
    have hlen := h m (by omega)
    have hidx1 : s.tscIdx + 2 * m + 1 + 1 = s.tscIdx + 2 * (m + 1) := by omega
    have hidx2 : s.clkIdx + 2 * m + 1 + 1 = s.clkIdx + 2 * (m + 1) := by omega
    have hsample : toU64 (toI64 (subU64 (subU64 (env.tsc (s.tscIdx + 2 * m + 1) % 2 ^ 64)
        (env.tsc (s.tscIdx + 2 * m) % 2 ^ 64)) (mulU64 k 2))) = roundCandidate env k s m := by
      rw [toU64_toI64 (subU64_lt _ _)]; rfl
    rw [acceptedCandidates_succ]
    simp only [realClockCostLoop, now, clockNow, hlen, if_true, hidx1, hidx2, hsample]
    by_cases hacc : env.clock (s.clkIdx + 2 * m + 1) ≤ env.clock (s.clkIdx + 2 * m)
    · have hr : roundAccepted env s m = false := by
        simp [roundAccepted, hacc]
      simp [hacc, hr]
    · have hr : roundAccepted env s m = true := by
        simp only [roundAccepted, decide_eq_true_eq]; omega
      simp [hacc, hr]

theorem realClockCostLoop_done (T : Traits) (env : Env) (k : Nat) (s : Reads) (m fuel : Nat)
    (hprev : ∀ j, j < m → (acceptedCandidates env k s j).length < T.kCostMeasurements)
    (hlen : (acceptedCandidates env k s m).length = T.kCostMeasurements) (hfuel : m < fuel) :
    realClockCostLoop T env k fuel s [] =
      some (acceptedCandidates env k s m, ⟨s.tscIdx + 2 * m, s.clkIdx + 2 * m⟩) := by
  obtain ⟨f, rfl⟩ : ∃ f, fuel = f + 1 + m := ⟨fuel - 1 - m, by omega⟩
  rw [realClockCostLoop_rounds T env k s m (f + 1) hprev]
  simp [realClockCostLoop, hlen]

/-- C5: let the first `m` rounds `(T1, C1, T2, C2)` of `calibrateRealClockCost`
hold exactly `kCostMeasurements` rounds with `T1 < T2`, the last of the `m`
being one of them.  Then (with fuel for `m` rounds) the stage returns after
exactly these `m` rounds; the samples it collected are the candidates
`(C2 - C1) - 2 * cost`, an integer difference reduced modulo `2 ^ 64`, of the
rounds with `T1 < T2`, in order, rounds with `T2 ≤ T1` contributing nothing;
there are exactly
`kCostMeasurements` of them; and the cost returned is the element at index
`kCostMeasurements / 2` of their ascending sorted arrangement. -/
theorem calibrateRealClockCost_median (T : Traits) (env : Env) (k : Nat) (s : Reads)
    (m fuel : Nat) (hN : 0 < T.kCostMeasurements)
    (hcount : ((List.range m).filter
      (fun j => decide (env.clock (s.clkIdx + 2 * j) < env.clock (s.clkIdx + 2 * j + 1)))).length =
        T.kCostMeasurements)
    (hlast : env.clock (s.clkIdx + 2 * (m - 1)) < env.clock (s.clkIdx + 2 * (m - 1) + 1))
    (hfuel : m < fuel) :
    ∃ (samples sorted : List Nat) (cost : Nat),
      realClockCostLoop T env k fuel s [] =
        some (samples, ⟨s.tscIdx + 2 * m, s.clkIdx + 2 * m⟩) ∧
      samples =
        ((List.range m).filter
          (fun j => decide (env.clock (s.clkIdx + 2 * j) < env.clock (s.clkIdx + 2 * j + 1)))).map
          (fun j =>
            ((((env.tsc (s.tscIdx + 2 * j + 1) % 2 ^ 64 : Nat) : Int) -
              ((env.tsc (s.tscIdx + 2 * j) % 2 ^ 64 : Nat) : Int) - 2 * (k : Int)) % 2 ^ 64).toNat) ∧
      samples.length = T.kCostMeasurements ∧
      sorted.Sorted (· ≤ ·) ∧ sorted.Perm samples ∧
      sorted[T.kCostMeasurements / 2]? = some cost ∧
      calibrateRealClockCost T env k fuel s =
        some (cost, ⟨s.tscIdx + 2 * m, s.clkIdx + 2 * m⟩) := by
  have hlen : (acceptedCandidates env k s m).length = T.kCostMeasurements := by
    unfold acceptedCandidates
    rw [List.length_map]
    exact hcount
  have hm : 0 < m := by
    rcases Nat.eq_zero_or_pos m with h0 | h0
    · subst h0
      simp at hcount
      omega
    · exact h0
  have hlastlen : (acceptedCandidates env k s (m - 1)).length < T.kCostMeasurements := by
    have hsucc := acceptedCandidates_succ env k s (m - 1)
    have hm1 : m - 1 + 1 = m := by omega
    rw [hm1] at hsucc
    have hacc : roundAccepted env s (m - 1) = true := by
      simp only [roundAccepted, decide_eq_true_eq]; exact hlast
    rw [hacc] at hsucc
    have := congrArg List.length hsucc
    rw [hlen, List.length_append] at this
    simp at this
    omega
  have hprev : ∀ j, j < m → (acceptedCandidates env k s j).length < T.kCostMeasurements := by
    intro j hj
    exact Nat.lt_of_le_of_lt
      (acceptedCandidates_length_mono env k s (by omega : j ≤ m - 1)) hlastlen
  have hrun := realClockCostLoop_done T env k s m fuel hprev hlen hfuel
  obtain ⟨cost, hcost⟩ := sortU64_median hN hlen
  refine ⟨_, sortU64 _, cost, hrun, ?_, hlen, sortU64_sorted _, sortU64_perm _, hcost, ?_⟩
  · unfold acceptedCandidates
    exact List.map_congr_left (fun j _ => roundCandidate_eq env k s j)
  · simp only [calibrateRealClockCost]
    rw [hrun]
    simp only [hcost]

/-! ### Stage 3: `calibrateCpuClockRate` -/

theorem sortDouble_sorted (l : List ℚ) : (sortDouble l).Sorted (· ≤ ·) :=
  List.sorted_insertionSort _ l

theorem sortDouble_perm (l : List ℚ) : (sortDouble l).Perm l :=
  List.perm_insertionSort _ l

theorem sortDouble_median {l : List ℚ} {n : Nat} (hn : 0 < n) (hl : l.length = n) :
    ∃ rate, (sortDouble l)[n / 2]? = some rate := by
  have h : n / 2 < (sortDouble l).length := by
    rw [sortDouble, List.length_insertionSort, hl]; omega
  exact ⟨(sortDouble l)[n / 2], List.getElem?_eq_getElem h⟩

theorem rateSample_cycles (k c start finish : Nat) :
    ((subU64 (toU64 (duration k start finish)) c : Nat) : Int) =
      ((finish : Int) - start - k - c) % 2 ^ 64 := by
  unfold duration
  rw [toU64_toI64 (subU64_lt _ _)]
  unfold subU64
  omega

theorem pollLoop_sample (T : Traits) (env : Env) (k c iStart jStart : Nat) :
    ∀ (fuel : Nat) (s : Reads) (x : ℚ) (s' : Reads),
      iStart < s.clkIdx → s.tscIdx = jStart + 1 →
      (∀ p, iStart < p → p < s.clkIdx →
        env.clock iStart < env.clock p ∧
        env.clock p - env.clock iStart < T.kRateMeasureDuration * 1000000) →
      pollLoop T env k c (env.clock iStart) (env.tsc jStart % 2 ^ 64) fuel s = some (some x, s') →
      IsRateSample T env k c x := by
  intro fuel
  induction fuel with
  | zero =>
    intro s x s' _ _ _ h
    simp [pollLoop] at h
  | succ fuel ih =>
    intro s x s' hlt htsc hwin h
    simp only [pollLoop, clockNow, now] at h
    by_cases h1 : env.clock s.clkIdx ≤ env.clock iStart
    · simp [h1] at h
    · rw [if_neg h1] at h
      by_cases h2 : T.kRateMeasureDuration * 1000000 ≤ env.clock s.clkIdx - env.clock iStart
      · rw [if_pos h2] at h
        simp only [Option.some.injEq, Prod.mk.injEq] at h
        refine ⟨iStart, s.clkIdx, jStart, _, hlt, hwin, by omega, h2,
          rateSample_cycles k c (env.tsc jStart % 2 ^ 64) (env.tsc (jStart + 1) % 2 ^ 64), ?_⟩
        rw [← h.1, htsc]
        rfl
      · rw [if_neg h2] at h
        refine ih ⟨s.tscIdx, s.clkIdx + 1⟩ x s' (Nat.lt_succ_of_lt hlt) htsc ?_ h
        intro p hp1 hp2
        rcases Nat.lt_or_ge p s.clkIdx with hp | hp
        · exact hwin p hp1 hp
        · have hp3 : p = s.clkIdx := by
            have : p < s.clkIdx + 1 := hp2
            omega
          subst hp3
          constructor <;> omega

theorem rateLoop_samples (T : Traits) (env : Env) (k c : Nat) :
    ∀ (fuel : Nat) (s : Reads) (samples out : List ℚ) (s' : Reads),
      (∀ x ∈ samples, IsRateSample T env k c x) →
      samples.length ≤ T.kRateMeasurements →
      rateLoop T env k c fuel s samples = some (out, s') →
      (∀ x ∈ out, IsRateSample T env k c x) ∧ out.length = T.kRateMeasurements := by
  intro fuel
  induction fuel with
  | zero =>
    intro s samples out s' _ _ h
    simp [rateLoop] at h
  | succ fuel ih =>
    intro s samples out s' hall hlen h
    by_cases hc : samples.length < T.kRateMeasurements
    · simp only [rateLoop, clockNow, now, hc, if_true] at h
      split at h
      · simp at h
      · rename_i s3 hp
        exact ih s3 samples out s' hall hlen h
      · rename_i x s3 hp
        have hx : IsRateSample T env k c x :=
          pollLoop_sample T env k c s.clkIdx s.tscIdx fuel _ x s3 (Nat.lt_succ_self _) rfl
            (fun p hp1 hp2 => by
              have : p < s.clkIdx + 1 := hp2
              omega) hp
        refine ih s3 (samples ++ [x]) out s' ?_ ?_ h
        · intro y hy
          rcases List.mem_append.mp hy with hy | hy
          · exact hall y hy
          · rw [List.mem_singleton.mp hy]; exact hx
        · rw [List.length_append]; simp; omega
    · simp only [rateLoop, hc, if_false, Option.some.injEq, Prod.mk.injEq] at h
      rw [← h.1]
      exact ⟨hall, by omega⟩

theorem calibrateCpuClockRate_inv (T : Traits) (env : Env) (k c fuel : Nat) (s : Reads)
    (rate : ℚ) (s' : Reads)
    (h : calibrateCpuClockRate T env k c fuel s = some (rate, s')) :
    ∃ samples : List ℚ,
      rateLoop T env k c fuel s [] = some (samples, s') ∧
      samples.length = T.kRateMeasurements ∧
      (∀ x ∈ samples, IsRateSample T env k c x) ∧
      (sortDouble samples)[T.kRateMeasurements / 2]? = some rate := by
  unfold calibrateCpuClockRate at h
  cases hl : rateLoop T env k c fuel s [] with
  | none => simp [hl] at h
  | some r =>
    obtain ⟨samples, s1⟩ := r
    simp only [hl] at h
    cases hm : (sortDouble samples)[T.kRateMeasurements / 2]? with
    | none => simp [hm] at h
    | some rate1 =>
      simp only [hm, Option.some.injEq, Prod.mk.injEq] at h
      have hinv := rateLoop_samples T env k c fuel s [] samples s1 (by simp) (by simp) hl
      exact ⟨samples, by rw [← h.2], hinv.2, hinv.1, by rw [← h.1]; exact hm⟩

/-! ### Termination under an advancing clock -/

theorem pollLoop_advancing (T : Traits) (env : Env) (k c : Nat) (chronoStart : Int)
    (tscStart : Nat) (hclk : ∀ i, env.clock i < env.clock (i + 1)) :
    ∀ (fuel : Nat) (s : Reads), chronoStart < env.clock s.clkIdx →
      (T.kRateMeasureDuration * 1000000 - (env.clock s.clkIdx - chronoStart)).toNat < fuel →
      ∃ x s', pollLoop T env k c chronoStart tscStart fuel s = some (some x, s') := by
  intro fuel
  induction fuel with
  | zero =>
    intro s _ h
    omega
  | succ fuel ih =>
    intro s hlt hfuel
    simp only [pollLoop, clockNow, now]
    rw [if_neg (by omega)]
    by_cases h2 : T.kRateMeasureDuration * 1000000 ≤ env.clock s.clkIdx - chronoStart
    · rw [if_pos h2]
      exact ⟨_, _, rfl⟩
    · rw [if_neg h2]
      have hnext := hclk s.clkIdx
      exact ih ⟨s.tscIdx, s.clkIdx + 1⟩ (by simp only; omega) (by simp only; omega)

theorem rateLoop_advancing (T : Traits) (env : Env) (k c : Nat)
    (hclk : ∀ i, env.clock i < env.clock (i + 1)) :
    ∀ (r fuel : Nat) (s : Reads) (samples : List ℚ),
      samples.length + r = T.kRateMeasurements →
      r + (T.kRateMeasureDuration * 1000000).toNat + 1 < fuel →
      ∃ out s', rateLoop T env k c fuel s samples = some (out, s') ∧
        out.length = T.kRateMeasurements := by
  intro r
  induction r with
  | zero =>
    intro fuel s samples hlen hfuel
    obtain ⟨f, rfl⟩ : ∃ f, fuel = f + 1 := ⟨fuel - 1, by omega⟩
    refine ⟨samples, s, ?_, by omega⟩
    simp only [rateLoop]
    rw [if_neg (by omega)]
  | succ r ih =>
    intro fuel s samples hlen hfuel
    obtain ⟨f, rfl⟩ : ∃ f, fuel = f + 1 := ⟨fuel - 1, by omega⟩
    have hnext := hclk s.clkIdx
    obtain ⟨x, s3, hp⟩ := pollLoop_advancing T env k c (env.clock s.clkIdx)
      (env.tsc s.tscIdx % 2 ^ 64) hclk f ⟨s.tscIdx + 1, s.clkIdx + 1⟩ (by simp only; omega)
      (by simp only; omega)
    obtain ⟨out, s', hout, hlen'⟩ := ih f s3 (samples ++ [x])
      (by rw [List.length_append]; simp; omega) (by omega)
    refine ⟨out, s', ?_, hlen'⟩
    simp only [rateLoop, clockNow, now]
    rw [if_pos (by omega)]
    split
    · rename_i h; rw [hp] at h; simp at h
    · rename_i h; rw [hp] at h; simp at h
    · rename_i y s4 h
      rw [hp] at h
      simp only [Option.some.injEq, Prod.mk.injEq] at h
      rw [← h.1, ← h.2]
      exact hout

theorem calibrateCpuClockRate_advancing (T : Traits) (env : Env) (k c : Nat) (s : Reads)
    (hN : 0 < T.kRateMeasurements) (hclk : ∀ i, env.clock i < env.clock (i + 1))
    (fuel : Nat)
    (hfuel : T.kRateMeasurements + (T.kRateMeasureDuration * 1000000).toNat + 1 < fuel) :
    ∃ samples rate s', rateLoop T env k c fuel s [] = some (samples, s') ∧
      samples.length = T.kRateMeasurements ∧
      calibrateCpuClockRate T env k c fuel s = some (rate, s') := by
  obtain ⟨out, s', hout, hlen⟩ := rateLoop_advancing T env k c hclk T.kRateMeasurements fuel s []
    (by simp) hfuel
  obtain ⟨rate, hrate⟩ := sortDouble_median hN hlen
  refine ⟨out, rate, s', hout, hlen, ?_⟩
  simp only [calibrateCpuClockRate, hout, hrate]

theorem acceptedCandidates_length_of_advancing (env : Env) (k : Nat) (s : Reads)
    (hclk : ∀ i, env.clock i < env.clock (i + 1)) (m : Nat) :
    (acceptedCandidates env k s m).length = m := by
  induction m with
  | zero => simp [acceptedCandidates]
  | succ m ih =>
    have hacc : roundAccepted env s m = true := by
      simp only [roundAccepted, decide_eq_true_eq]; exact hclk _
    rw [acceptedCandidates_succ, hacc, List.length_append, ih]
    simp

theorem rateSample_eq (env : Env) (k c : Nat) (st : Reads) (d : Int) :
    rateSample env k c (env.tsc st.tscIdx % 2 ^ 64) (env.tsc (st.tscIdx + 1) % 2 ^ 64) d =
      env.round (env.round ((estimateCycles env k c st : Nat) : ℚ) / env.round (d : ℚ)) := by
  have h := rateSample_cycles k c (env.tsc st.tscIdx % 2 ^ 64) (env.tsc (st.tscIdx + 1) % 2 ^ 64)
  have h2 : subU64 (toU64 (duration k (env.tsc st.tscIdx % 2 ^ 64)
      (env.tsc (st.tscIdx + 1) % 2 ^ 64))) c = estimateCycles env k c st := by
    unfold estimateCycles
    omega
  unfold rateSample
  simp only [h2]

theorem pollLoop_estimate (T : Traits) (env : Env) (k c : Nat) (st : Reads) :
    ∀ (fuel q : Nat) (r : Option ℚ) (s' : Reads),
      (∀ p, 1 ≤ p → p < q + 1 →
        env.clock st.clkIdx < env.clock (st.clkIdx + p) ∧
        env.clock (st.clkIdx + p) - env.clock st.clkIdx < T.kRateMeasureDuration * 1000000) →
      pollLoop T env k c (env.clock st.clkIdx) (env.tsc st.tscIdx % 2 ^ 64) fuel
        ⟨st.tscIdx + 1, st.clkIdx + (q + 1)⟩ = some (r, s') →
      ∃ e : Estimate, EstimateOk T env st e ∧ s' = estimateEnd st e ∧
        r = (if e.recorded = true then some (estimateSample env k c st e) else none) := by
  intro fuel
  induction fuel with
  | zero =>
    intro q r s' _ h
    simp [pollLoop] at h
  | succ fuel ih =>
    intro q r s' hwin h
    simp only [pollLoop, clockNow, now] at h
    by_cases h1 : env.clock (st.clkIdx + (q + 1)) ≤ env.clock st.clkIdx
    · rw [if_pos h1] at h
      simp only [Option.some.injEq, Prod.mk.injEq] at h
      refine ⟨⟨q + 1, false⟩, ⟨by simp, hwin, ?_⟩, ?_, ?_⟩
      · simpa using h1
      · rw [← h.2]; simp [estimateEnd]
      · rw [← h.1]; simp
    · rw [if_neg h1] at h
      by_cases h2 : T.kRateMeasureDuration * 1000000 ≤
          env.clock (st.clkIdx + (q + 1)) - env.clock st.clkIdx
      · rw [if_pos h2] at h
        simp only [Option.some.injEq, Prod.mk.injEq] at h
        refine ⟨⟨q + 1, true⟩, ⟨by simp, hwin, ?_⟩, ?_, ?_⟩
        · simp only [if_true]
          exact ⟨by omega, h2⟩
        · rw [← h.2]; simp [estimateEnd]
        · rw [← h.1]
          simp only [if_true, Option.some.injEq]
          exact rateSample_eq env k c st _
      · rw [if_neg h2] at h
        refine ih (q + 1) r s' ?_ h
        intro p hp1 hp2
        rcases Nat.lt_or_ge p (q + 1) with hp | hp
        · exact hwin p hp1 hp
        · have hp3 : p = q + 1 := by omega
          subst hp3
          constructor <;> omega

theorem rateLoop_trace (T : Traits) (env : Env) (k c : Nat) :
    ∀ (fuel : Nat) (s : Reads) (samples out : List ℚ) (s' : Reads),
      rateLoop T env k c fuel s samples = some (out, s') →
      ∃ es : List Estimate, TraceOk T env s es ∧ traceEnd s es = s' ∧
        out = samples ++ traceSamples env k c s es := by
  intro fuel
  induction fuel with
  | zero =>
    intro s samples out s' h
    simp [rateLoop] at h
  | succ fuel ih =>
    intro s samples out s' h
    by_cases hc : samples.length < T.kRateMeasurements
    · simp only [rateLoop, clockNow, now, hc, if_true] at h
      split at h
      · simp at h
      · rename_i s3 hp
        obtain ⟨e, hok, hend, hr⟩ := pollLoop_estimate T env k c s fuel 0 none s3
          (fun p hp1 hp2 => by omega) hp
        have hrec : e.recorded = false := by
          cases hb : e.recorded with
          | false => rfl
          | true => rw [hb] at hr; simp at hr
        obtain ⟨es, htr, hte, hout⟩ := ih s3 samples out s' h
        refine ⟨e :: es, ⟨hok, by rw [← hend]; exact htr⟩, ?_, ?_⟩
        · simp only [traceEnd]; rw [← hend]; exact hte
        · simp only [traceSamples, hrec]
          rw [← hend]
          simpa using hout
      · rename_i x s3 hp
        obtain ⟨e, hok, hend, hr⟩ := pollLoop_estimate T env k c s fuel 0 (some x) s3
          (fun p hp1 hp2 => by omega) hp
        have hrec : e.recorded = true := by
          cases hb : e.recorded with
          | true => rfl
          | false => rw [hb] at hr; simp at hr
        rw [hrec] at hr
        simp only [if_true, Option.some.injEq] at hr
        obtain ⟨es, htr, hte, hout⟩ := ih s3 (samples ++ [x]) out s' h
        refine ⟨e :: es, ⟨hok, by rw [← hend]; exact htr⟩, ?_, ?_⟩
        · simp only [traceEnd]; rw [← hend]; exact hte
        · simp only [traceSamples, hrec, if_true]
          rw [← hend, ← hr, hout]
          simp
    · simp only [rateLoop, hc, if_false, Option.some.injEq, Prod.mk.injEq] at h
      exact ⟨[], trivial, by simpa [traceEnd] using h.2, by simpa [traceSamples] using h.1.symm⟩

/-- C6: whenever `calibrateCpuClockRate`, started after the reads `s`,
returns, its reads are those of a sequence of estimates made one after the
other from `s`: each takes its start time from the next clock read and its
start counter reading from the next counter read, polls the clock, and
either is left without a sample or records one after a poll that is later
than its start by at least the window, taking the finish reading from the
next counter read.  The samples recorded are, in order, the `double`
quotients of `finish - start - rdtscCyclesCost - realClockCyclesCost`
(an integer difference reduced modulo `2 ^ 64`, and that very difference when
`start + rdtscCyclesCost + realClockCyclesCost ≤ finish`) by the nanoseconds
elapsed between the estimate's start clock read and its last poll; there are
exactly `kRateMeasurements` of them; and the rate returned is the element at
index `kRateMeasurements / 2` of their ascending sorted arrangement.  With a
positive sample count and a clock that advances at every read, the stage does
return once the fuel exceeds `kRateMeasurements + window + 1`. -/
theorem calibrateCpuClockRate_samples (T : Traits) (env : Env) (k c : Nat) (s : Reads) :
    (∀ (fuel : Nat) (rate : ℚ) (s' : Reads),
      calibrateCpuClockRate T env k c fuel s = some (rate, s') →
      ∃ (estimates : List Estimate) (sorted : List ℚ),
        TraceOk T env s estimates ∧
        traceEnd s estimates = s' ∧
        rateLoop T env k c fuel s [] = some (traceSamples env k c s estimates, s') ∧
        (traceSamples env k c s estimates).length = T.kRateMeasurements ∧
        sorted.Sorted (· ≤ ·) ∧ sorted.Perm (traceSamples env k c s estimates) ∧
        sorted[T.kRateMeasurements / 2]? = some rate) ∧
    (∀ st : Reads,
      env.tsc st.tscIdx % 2 ^ 64 + k + c ≤ env.tsc (st.tscIdx + 1) % 2 ^ 64 →
      estimateCycles env k c st =
        env.tsc (st.tscIdx + 1) % 2 ^ 64 - env.tsc st.tscIdx % 2 ^ 64 - k - c) ∧
    (0 < T.kRateMeasurements → (∀ i, env.clock i < env.clock (i + 1)) →
      ∀ fuel, T.kRateMeasurements + (T.kRateMeasureDuration * 1000000).toNat + 1 < fuel →
        ∃ rate s', calibrateCpuClockRate T env k c fuel s = some (rate, s')) := by
  refine ⟨?_, ?_, ?_⟩
  · intro fuel rate s' h
    obtain ⟨samples, hloop, hlen, _, hmed⟩ := calibrateCpuClockRate_inv T env k c fuel s rate s' h
    obtain ⟨es, htr, hte, hout⟩ := rateLoop_trace T env k c fuel s [] samples s' hloop
    simp only [List.nil_append] at hout
    subst hout
    exact ⟨es, sortDouble _, htr, hte, hloop, hlen, sortDouble_sorted _, sortDouble_perm _, hmed⟩
  · intro st h
    unfold estimateCycles
    omega
  · intro hN hclk fuel hfuel
    obtain ⟨_, rate, s', _, _, h⟩ := calibrateCpuClockRate_advancing T env k c s hN hclk fuel hfuel
    exact ⟨rate, s', h⟩

/-- C8: with positive sample counts and a reference clock whose every read
returns a later timestamp than the read before, `calibrate` returns for every
sequence of counter readings once the fuel reaches
`kCostMeasurements + kRateMeasurements + window + 2`: the counter-read cost
stage, then the clock-read cost stage (using that cost), then the rate stage
(using both costs) each return a value, their loops ending with exactly
`kCostMeasurements`, `kCostMeasurements` and `kRateMeasurements` samples. -/
theorem calibrate_terminates (T : Traits) (env : Env) (s : Reads)
    (hN1 : 0 < T.kCostMeasurements) (hN2 : 0 < T.kRateMeasurements)
    (hclk : ∀ i, env.clock i < env.clock (i + 1)) (fuel : Nat)
    (hfuel : T.kCostMeasurements + T.kRateMeasurements +
      (T.kRateMeasureDuration * 1000000).toNat + 2 ≤ fuel) :
    ∃ (l1 l2 : List Nat) (l3 : List ℚ) (k c : Nat) (r : ℚ) (s1 s2 s3 : Reads),
      rdtscCostLoop T env fuel (now env s).2 (now env s).1 [] = some (l1, s1) ∧
      l1.length = T.kCostMeasurements ∧
      calibrateRdtscCost T env fuel s = some (k, s1) ∧
      realClockCostLoop T env k fuel s1 [] = some (l2, s2) ∧
      l2.length = T.kCostMeasurements ∧
      calibrateRealClockCost T env k fuel s1 = some (c, s2) ∧
      rateLoop T env k c fuel s2 [] = some (l3, s3) ∧
      l3.length = T.kRateMeasurements ∧
      calibrateCpuClockRate T env k c fuel s2 = some (r, s3) ∧
      calibrate T env fuel s =
        some ({ _rdtscCyclesCost := k, _realClockCyclesCost := c, _cpuClockRate := r }, s3) := by
  -- stage 1
  have hrun1 := rdtscCostLoop_run T env s.tscIdx s.clkIdx T.kCostMeasurements fuel 0
    (by omega) (by omega)
  simp only [Nat.mul_zero, Nat.add_zero, List.range_zero, List.map_nil] at hrun1
  have hlen1 : ((List.range T.kCostMeasurements).map (rdtscDelta env s.tscIdx)).length =
      T.kCostMeasurements := by simp
  obtain ⟨k, hk⟩ := sortU64_median hN1 hlen1
  have hstage1 : calibrateRdtscCost T env fuel s =
      some (k, ⟨s.tscIdx + 2 * T.kCostMeasurements + 1, s.clkIdx⟩) := by
    simp only [calibrateRdtscCost, now]
    rw [hrun1]
    simp only [hk]
  -- stage 2
  have hlen2 := acceptedCandidates_length_of_advancing env k
    ⟨s.tscIdx + 2 * T.kCostMeasurements + 1, s.clkIdx⟩ hclk
  have hrun2 := realClockCostLoop_done T env k
    ⟨s.tscIdx + 2 * T.kCostMeasurements + 1, s.clkIdx⟩ T.kCostMeasurements fuel
    (fun j hj => by rw [hlen2 j]; exact hj) (hlen2 _) (by omega)
  simp only at hrun2
  obtain ⟨c, hc⟩ := sortU64_median hN1 (hlen2 T.kCostMeasurements)
  have hstage2 : calibrateRealClockCost T env k fuel
      ⟨s.tscIdx + 2 * T.kCostMeasurements + 1, s.clkIdx⟩ =
        some (c, ⟨s.tscIdx + 2 * T.kCostMeasurements + 1 + 2 * T.kCostMeasurements,
          s.clkIdx + 2 * T.kCostMeasurements⟩) := by
    simp only [calibrateRealClockCost]
    rw [hrun2]
    simp only [hc]
  -- stage 3
  obtain ⟨l3, r, s3, hrun3, hlen3, hstage3⟩ := calibrateCpuClockRate_advancing T env k c
    ⟨s.tscIdx + 2 * T.kCostMeasurements + 1 + 2 * T.kCostMeasurements,
      s.clkIdx + 2 * T.kCostMeasurements⟩ hN2 hclk fuel (by omega)
  refine ⟨_, _, l3, k, c, r, _, _, s3, ?_, hlen1, hstage1, hrun2, hlen2 _, hstage2, hrun3,
    hlen3, hstage3, ?_⟩
  · simpa [now] using hrun1
  · simp only [calibrate, hstage1, hstage2, hstage3]

/-! ### Ranges of the calibrated fields -/

theorem toU64_lt (i : Int) : toU64 i < 2 ^ 64 := by
  unfold toU64
  omega

theorem rdtscCostLoop_bound (T : Traits) (env : Env) :
    ∀ (fuel : Nat) (s : Reads) (last : Nat) (samples out : List Nat) (s' : Reads),
      (∀ x ∈ samples, x < 2 ^ 64) →
      rdtscCostLoop T env fuel s last samples = some (out, s') →
      ∀ x ∈ out, x < 2 ^ 64 := by
  intro fuel
  induction fuel with
  | zero =>
    intro s last samples out s' _ h
    simp [rdtscCostLoop] at h
  | succ fuel ih =>
    intro s last samples out s' hall h
    simp only [rdtscCostLoop] at h
    split at h
    · refine ih _ _ _ out s' ?_ h
      intro y hy
      rcases List.mem_append.mp hy with hy | hy
      · exact hall y hy
      · rw [List.mem_singleton.mp hy]; exact toU64_lt _
    · simp only [Option.some.injEq, Prod.mk.injEq] at h
      rw [← h.1]; exact hall

theorem realClockCostLoop_bound (T : Traits) (env : Env) (k : Nat) :
    ∀ (fuel : Nat) (s : Reads) (samples out : List Nat) (s' : Reads),
      (∀ x ∈ samples, x < 2 ^ 64) →
      realClockCostLoop T env k fuel s samples = some (out, s') →
      ∀ x ∈ out, x < 2 ^ 64 := by
  intro fuel
  induction fuel with
  | zero =>
    intro s samples out s' _ h
    simp [realClockCostLoop] at h
  | succ fuel ih =>
    intro s samples out s' hall h
    simp only [realClockCostLoop] at h
    split at h
    · split at h
      · exact ih _ _ out s' hall h
      · refine ih _ _ out s' ?_ h
        intro y hy
        rcases List.mem_append.mp hy with hy | hy
        · exact hall y hy
        · rw [List.mem_singleton.mp hy]; exact toU64_lt _
    · simp only [Option.some.injEq, Prod.mk.injEq] at h
      rw [← h.1]; exact hall

theorem calibrateRdtscCost_lt (T : Traits) (env : Env) (fuel : Nat) (s : Reads) (k : Nat)
    (s' : Reads) (h : calibrateRdtscCost T env fuel s = some (k, s')) : k < 2 ^ 64 := by
  simp only [calibrateRdtscCost] at h
  split at h
  · simp at h
  · rename_i samples s1 hl
    split at h
    · simp at h
    · rename_i cost hm
      simp only [Option.some.injEq, Prod.mk.injEq] at h
      have hmem : cost ∈ samples := (sortU64_perm samples).mem_iff.mp (List.getElem?_mem hm)
      rw [← h.1]
      exact rdtscCostLoop_bound T env fuel _ _ [] samples s1 (by simp) hl cost hmem

theorem calibrateRealClockCost_lt (T : Traits) (env : Env) (k fuel : Nat) (s : Reads)
    (c : Nat) (s' : Reads) (h : calibrateRealClockCost T env k fuel s = some (c, s')) :
    c < 2 ^ 64 := by
  simp only [calibrateRealClockCost] at h
  split at h
  · simp at h
  · rename_i samples s1 hl
    split at h
    · simp at h
    · rename_i cost hm
      simp only [Option.some.injEq, Prod.mk.injEq] at h
      have hmem : cost ∈ samples := (sortU64_perm samples).mem_iff.mp (List.getElem?_mem hm)
      rw [← h.1]
      exact realClockCostLoop_bound T env k fuel _ [] samples s1 (by simp) hl cost hmem

theorem isRateSample_nonneg (T : Traits) (env : Env) (k c : Nat) (x : ℚ)
    (hround : ∀ q : ℚ, 0 ≤ q → 0 ≤ env.round q) (h : IsRateSample T env k c x) : 0 ≤ x := by
  obtain ⟨iStart, iPoll, jStart, cycles, _, _, hlt, _, _, hx⟩ := h
  rw [hx]
  apply hround
  apply div_nonneg
  · exact hround _ (Nat.cast_nonneg _)
  · apply hround
    have : (0 : Int) ≤ env.clock iPoll - env.clock iStart := by omega
    exact_mod_cast this

theorem calibrate_stages (T : Traits) (env : Env) (fuel : Nat) (s : Reads) (inst : TscImpl)
    (s' : Reads) (h : calibrate T env fuel s = some (inst, s')) :
    ∃ s1 s2,
      calibrateRdtscCost T env fuel s = some (inst._rdtscCyclesCost, s1) ∧
      calibrateRealClockCost T env inst._rdtscCyclesCost fuel s1 =
        some (inst._realClockCyclesCost, s2) ∧
      calibrateCpuClockRate T env inst._rdtscCyclesCost inst._realClockCyclesCost fuel s2 =
        some (inst._cpuClockRate, s') := by
  simp only [calibrate] at h
  split at h
  · simp at h
  · rename_i k s1 h1
    split at h
    · simp at h
    · rename_i c s2 h2
      split at h
      · simp at h
      · rename_i r s3 h3
        simp only [Option.some.injEq, Prod.mk.injEq] at h
        obtain ⟨hinst, hs⟩ := h
        subst hinst
        subst hs
        exact ⟨s1, s2, h1, h2, h3⟩

/-- C7 (amended): for every calibration run that completes, the resulting
tick rate is not negative (rounding to `double` keeping non-negative values
non-negative), and the counter-read cost and the clock-read cost are
non-negative 64-bit values.  The rate can be zero. -/
theorem calibrate_rate_nonneg (T : Traits) (env : Env) (fuel : Nat) (s : Reads)
    (inst : TscImpl) (s' : Reads)
    (hround : ∀ q : ℚ, 0 ≤ q → 0 ≤ env.round q)
    (h : calibrate T env fuel s = some (inst, s')) :
    0 ≤ inst._cpuClockRate ∧
      ((0 : Int) ≤ inst._rdtscCyclesCost ∧ inst._rdtscCyclesCost < 2 ^ 64) ∧
      ((0 : Int) ≤ inst._realClockCyclesCost ∧ inst._realClockCyclesCost < 2 ^ 64) := by
  obtain ⟨s1, s2, h1, h2, h3⟩ := calibrate_stages T env fuel s inst s' h
  obtain ⟨samples, _, _, hall, hmed⟩ := calibrateCpuClockRate_inv T env _ _ fuel s2 _ s' h3
  have hmem : inst._cpuClockRate ∈ samples :=
    (sortDouble_perm samples).mem_iff.mp (List.getElem?_mem hmed)
  exact ⟨isRateSample_nonneg T env _ _ _ hround (hall _ hmem),
    ⟨Int.natCast_nonneg _, calibrateRdtscCost_lt T env fuel s _ s1 h1⟩,
    ⟨Int.natCast_nonneg _, calibrateRealClockCost_lt T env _ fuel s1 _ s2 h2⟩⟩

/-! ### A reading that is not later than the start -/

theorem pollLoop_abandon (T : Traits) (env : Env) (k c : Nat) (chronoStart : Int)
    (tscStart : Nat) :
    ∀ (j fuel : Nat) (s : Reads),
      (∀ i, i < j → chronoStart < env.clock (s.clkIdx + i) ∧
        env.clock (s.clkIdx + i) - chronoStart < T.kRateMeasureDuration * 1000000) →
      env.clock (s.clkIdx + j) ≤ chronoStart → j < fuel →
      pollLoop T env k c chronoStart tscStart fuel s =
        some (none, ⟨s.tscIdx, s.clkIdx + j + 1⟩) := by
  intro j
  induction j with
  | zero =>
    intro fuel s _ hback hfuel
    obtain ⟨f, rfl⟩ : ∃ f, fuel = f + 1 := ⟨fuel - 1, by omega⟩
    simp only [Nat.add_zero] at hback
    simp only [pollLoop, clockNow, hback, if_true, Nat.add_zero]
  | succ j ih =>
    intro fuel s hwin hback hfuel
    obtain ⟨f, rfl⟩ : ∃ f, fuel = f + 1 := ⟨fuel - 1, by omega⟩
    have h0 := hwin 0 (by omega)
    simp only [Nat.add_zero] at h0
    simp only [pollLoop, clockNow]
    rw [if_neg (by omega), if_neg (by omega)]
    have hidx : s.clkIdx + (j + 1) + 1 = s.clkIdx + 1 + j + 1 := by omega
    rw [hidx]
    refine ih f ⟨s.tscIdx, s.clkIdx + 1⟩ ?_ ?_ (by omega)
    · intro i hi
      have := hwin (i + 1) (by omega)
      have hidx2 : s.clkIdx + (i + 1) = s.clkIdx + 1 + i := by omega
      rw [hidx2] at this
      exact this
    · have hidx3 : s.clkIdx + (j + 1) = s.clkIdx + 1 + j := by omega
      rw [hidx3] at hback
      exact hback

/-- C9 (amended): during one rate estimate of `calibrateCpuClockRate`, a
reference-clock reading that is not later than the estimate's start time ends
the estimate without a sample: the inner loop is left, no sample is recorded,
and the outer loop goes on from the following reads with the samples
unchanged, so that the next estimate takes a fresh start time and a fresh
start counter reading. -/
theorem rateLoop_restarts_on_stale_reading (T : Traits) (env : Env) (k c : Nat) (s : Reads)
    (samples : List ℚ) (j fuel : Nat)
    (hlen : samples.length < T.kRateMeasurements)
    (hwin : ∀ i, 1 ≤ i → i ≤ j → env.clock s.clkIdx < env.clock (s.clkIdx + i) ∧
      env.clock (s.clkIdx + i) - env.clock s.clkIdx < T.kRateMeasureDuration * 1000000)
    (hback : env.clock (s.clkIdx + j + 1) ≤ env.clock s.clkIdx)
    (hfuel : j < fuel) :
    pollLoop T env k c (env.clock s.clkIdx) (env.tsc s.tscIdx % 2 ^ 64) fuel
        ⟨s.tscIdx + 1, s.clkIdx + 1⟩ = some (none, ⟨s.tscIdx + 1, s.clkIdx + j + 2⟩) ∧
      rateLoop T env k c (fuel + 1) s samples =
        rateLoop T env k c fuel ⟨s.tscIdx + 1, s.clkIdx + j + 2⟩ samples := by
  have hp := pollLoop_abandon T env k c (env.clock s.clkIdx) (env.tsc s.tscIdx % 2 ^ 64) j fuel
    ⟨s.tscIdx + 1, s.clkIdx + 1⟩
    (fun i hi => by
      have := hwin (i + 1) (by omega) (by omega)
      have hidx : s.clkIdx + (i + 1) = s.clkIdx + 1 + i := by omega
      rw [hidx] at this
      exact this)
    (by
      have hidx : s.clkIdx + j + 1 = s.clkIdx + 1 + j := by omega
      rw [hidx] at hback
      exact hback)
    hfuel
  have hidx : s.clkIdx + 1 + j + 1 = s.clkIdx + j + 2 := by omega
  simp only [hidx] at hp
  refine ⟨hp, ?_⟩
  simp only [rateLoop, clockNow, now, hlen, if_true]
  split
  · rename_i h; rw [hp] at h; simp at h
  · rename_i s3 h
    rw [hp] at h
    simp only [Option.some.injEq, Prod.mk.injEq, true_and] at h
    rw [← h]
  · rename_i y s3 h; rw [hp] at h; simp at h

/-! ### `toNanos` -/

/-- C3 (amended): for a tick rate `r > 0` and a duration `d` whose `double`
quotient `q` (the rounded `d` divided by `r`, rounded) satisfies
`-1 < q < 2 ^ 63`, `toNanos(d)` returns `q` truncated toward zero; when
`0 ≤ q` the result `n` satisfies `n ≤ q < n + 1`, and so, when the arithmetic
is exact and `d ≥ 0`, `n ≤ d / r < n + 1`. -/
theorem toNanos_truncates (env : Env) (self : TscImpl) (d : Int)
    (hr : 0 < self._cpuClockRate)
    (hlo : -1 < env.round (env.round (d : ℚ) / self._cpuClockRate))
    (hhi : env.round (env.round (d : ℚ) / self._cpuClockRate) < 2 ^ 63) :
    ∃ n : Int, toNanos env self d = some n ∧
      n = (if 0 ≤ env.round (env.round (d : ℚ) / self._cpuClockRate)
        then ⌊env.round (env.round (d : ℚ) / self._cpuClockRate)⌋
        else ⌈env.round (env.round (d : ℚ) / self._cpuClockRate)⌉) ∧
      (0 ≤ env.round (env.round (d : ℚ) / self._cpuClockRate) →
        (n : ℚ) ≤ env.round (env.round (d : ℚ) / self._cpuClockRate) ∧
        env.round (env.round (d : ℚ) / self._cpuClockRate) < n + 1) ∧
      ((∀ q, env.round q = q) → 0 ≤ d →
        (n : ℚ) ≤ (d : ℚ) / self._cpuClockRate ∧ (d : ℚ) / self._cpuClockRate < n + 1) := by
  generalize hq : env.round (env.round (d : ℚ) / self._cpuClockRate) = q at hlo hhi ⊢
  have hne : self._cpuClockRate ≠ 0 := ne_of_gt hr
  have ht : (0 : Int) ≤ (if 0 ≤ q then ⌊q⌋ else ⌈q⌉) ∧ (if 0 ≤ q then ⌊q⌋ else ⌈q⌉) < 2 ^ 63 := by
    by_cases h0 : 0 ≤ q
    · rw [if_pos h0]
      refine ⟨Int.floor_nonneg.mpr h0, ?_⟩
      rw [Int.floor_lt]
      exact_mod_cast hhi
    · rw [if_neg h0]
      have hceil : ⌈q⌉ = 0 := by
        rw [Int.ceil_eq_iff]
        constructor
        · simpa using hlo
        · simpa using le_of_lt (not_le.mp h0)
      rw [hceil]
      norm_num
  refine ⟨if 0 ≤ q then ⌊q⌋ else ⌈q⌉, ?_, rfl, ?_, ?_⟩
  · unfold toNanos
    rw [if_neg hne]
    simp only [hq]
    rw [if_pos ⟨ht.1, by omega⟩]
    congr 1
    have hlt : (if 0 ≤ q then ⌊q⌋ else ⌈q⌉).toNat < 2 ^ 63 := by omega
    rw [toI64_of_lt hlt]
    omega
  · intro h0
    rw [if_pos h0]
    exact ⟨Int.floor_le q, Int.lt_floor_add_one q⟩
  · intro hexact hd
    have hq2 : q = (d : ℚ) / self._cpuClockRate := by
      rw [← hq, hexact, hexact]
    have h0 : 0 ≤ q := by
      rw [hq2]
      exact div_nonneg (by exact_mod_cast hd) (le_of_lt hr)
    rw [if_pos h0, ← hq2]
    exact ⟨Int.floor_le q, Int.lt_floor_add_one q⟩

/-! ### Concrete runs -/

theorem sampleEnv_calibrate :
    calibrate TscTraits sampleEnv 200 ⟨0, 0⟩ =
      some (⟨10, 30, 3⟩,
        ⟨427, 224⟩) := by
  decide!

theorem stallEnv_stage3 :
    calibrateCpuClockRate TscTraits stallEnv 10 30 40 ⟨0, 0⟩ = some (3, ⟨23, 25⟩) := by
  decide!

/-- Witness of C4: the steady run on the default traits with fuel 102. -/
theorem calibrateRdtscCost_median_witness :
    (0 < TscTraits.kCostMeasurements ∧ TscTraits.kCostMeasurements < 102) ∧
    ∃ (deltas sorted : List Nat) (cost : Nat),
      rdtscCostLoop TscTraits steadyEnv 102 (now steadyEnv ⟨0, 0⟩).2 (now steadyEnv ⟨0, 0⟩).1 [] =
        some (deltas, ⟨(⟨0, 0⟩ : Reads).tscIdx + 2 * TscTraits.kCostMeasurements + 1,
          (⟨0, 0⟩ : Reads).clkIdx⟩) ∧
      deltas.length = TscTraits.kCostMeasurements ∧
      (∀ i, i < TscTraits.kCostMeasurements →
        deltas[i]? = some (subU64 (steadyEnv.tsc ((⟨0, 0⟩ : Reads).tscIdx + 2 * i + 1) % 2 ^ 64)
          (steadyEnv.tsc ((⟨0, 0⟩ : Reads).tscIdx + 2 * i) % 2 ^ 64))) ∧
      sorted.Sorted (· ≤ ·) ∧ sorted.Perm deltas ∧
      sorted[TscTraits.kCostMeasurements / 2]? = some cost ∧
      calibrateRdtscCost TscTraits steadyEnv 102 ⟨0, 0⟩ =
        some (cost, ⟨(⟨0, 0⟩ : Reads).tscIdx + 2 * TscTraits.kCostMeasurements + 1,
          (⟨0, 0⟩ : Reads).clkIdx⟩) :=
  ⟨by decide, calibrateRdtscCost_median TscTraits steadyEnv ⟨0, 0⟩ 102 (by decide) (by decide)⟩

/-- Witness of C5: the run `stallEnv`, whose first round is discarded
(`T2 = T1`), so that 102 rounds are made for 101 samples. -/
theorem calibrateRealClockCost_median_witness :
    (0 < TscTraits.kCostMeasurements ∧
      ((List.range 102).filter (fun j => decide (stallEnv.clock ((⟨0, 0⟩ : Reads).clkIdx + 2 * j) <
        stallEnv.clock ((⟨0, 0⟩ : Reads).clkIdx + 2 * j + 1)))).length =
          TscTraits.kCostMeasurements ∧
      stallEnv.clock ((⟨0, 0⟩ : Reads).clkIdx + 2 * (102 - 1)) <
        stallEnv.clock ((⟨0, 0⟩ : Reads).clkIdx + 2 * (102 - 1) + 1) ∧
      102 < 103) ∧
    ∃ (samples sorted : List Nat) (cost : Nat),
      realClockCostLoop TscTraits stallEnv 10 103 ⟨0, 0⟩ [] =
        some (samples, ⟨(⟨0, 0⟩ : Reads).tscIdx + 2 * 102, (⟨0, 0⟩ : Reads).clkIdx + 2 * 102⟩) ∧
      samples =
        ((List.range 102).filter
          (fun j => decide (stallEnv.clock ((⟨0, 0⟩ : Reads).clkIdx + 2 * j) <
            stallEnv.clock ((⟨0, 0⟩ : Reads).clkIdx + 2 * j + 1)))).map
          (fun j =>
            ((((stallEnv.tsc ((⟨0, 0⟩ : Reads).tscIdx + 2 * j + 1) % 2 ^ 64 : Nat) : Int) -
              ((stallEnv.tsc ((⟨0, 0⟩ : Reads).tscIdx + 2 * j) % 2 ^ 64 : Nat) : Int) -
                2 * ((10 : Nat) : Int)) % 2 ^ 64).toNat) ∧
      samples.length = TscTraits.kCostMeasurements ∧
      sorted.Sorted (· ≤ ·) ∧ sorted.Perm samples ∧
      sorted[TscTraits.kCostMeasurements / 2]? = some cost ∧
      calibrateRealClockCost TscTraits stallEnv 10 103 ⟨0, 0⟩ =
        some (cost, ⟨(⟨0, 0⟩ : Reads).tscIdx + 2 * 102, (⟨0, 0⟩ : Reads).clkIdx + 2 * 102⟩) :=
  ⟨by decide, calibrateRealClockCost_median TscTraits stallEnv 10 ⟨0, 0⟩ 102 103
    (by decide) (by decide) (by decide) (by decide)⟩

/-- Witness of C6: the run `stallEnv`, in which the first estimate is left
without a sample after one poll and the second needs two polls; the stage
returns the rate 3, the samples being 2 and ten times 3. -/
theorem calibrateCpuClockRate_samples_witness :
    (calibrateCpuClockRate TscTraits stallEnv 10 30 40 ⟨0, 0⟩ = some (3, ⟨23, 25⟩) ∧
      traceSamples stallEnv 10 30 ⟨0, 0⟩
        (⟨1, false⟩ :: ⟨2, true⟩ :: List.replicate 10 ⟨1, true⟩) =
          [2, 3, 3, 3, 3, 3, 3, 3, 3, 3, 3] ∧
      traceEnd ⟨0, 0⟩ (⟨1, false⟩ :: ⟨2, true⟩ :: List.replicate 10 ⟨1, true⟩) = ⟨23, 25⟩) ∧
    ∃ (estimates : List Estimate) (sorted : List ℚ),
      TraceOk TscTraits stallEnv ⟨0, 0⟩ estimates ∧
      traceEnd ⟨0, 0⟩ estimates = ⟨23, 25⟩ ∧
      rateLoop TscTraits stallEnv 10 30 40 ⟨0, 0⟩ [] =
        some (traceSamples stallEnv 10 30 ⟨0, 0⟩ estimates, ⟨23, 25⟩) ∧
      (traceSamples stallEnv 10 30 ⟨0, 0⟩ estimates).length = TscTraits.kRateMeasurements ∧
      sorted.Sorted (· ≤ ·) ∧ sorted.Perm (traceSamples stallEnv 10 30 ⟨0, 0⟩ estimates) ∧
      sorted[TscTraits.kRateMeasurements / 2]? = some 3 :=
  ⟨⟨stallEnv_stage3, by decide!, by decide⟩,
    (calibrateCpuClockRate_samples TscTraits stallEnv 10 30 ⟨0, 0⟩).1 40 3 ⟨23, 25⟩
      stallEnv_stage3⟩

/-- Counterexample to C2 as stated: after the calibration of the run
`sampleEnv` (cost 10), the next two counter reads are `1320013010` and
`1320013013`, in this order and without overflow, and their duration is
`-7`. -/
theorem duration_negative_after_calibration :
    calibrate TscTraits sampleEnv 200 ⟨0, 0⟩ =
      some (⟨10, 30, 3⟩,
        ⟨427, 224⟩) ∧
    now sampleEnv ⟨427, 224⟩ = (1320013010, ⟨428, 224⟩) ∧
    now sampleEnv ⟨428, 224⟩ = (1320013013, ⟨429, 224⟩) ∧
    (1320013010 : Nat) ≤ 1320013013 ∧
    duration 10 1320013010 1320013013 = -7 ∧
    ¬ (0 ≤ duration 10 1320013010 1320013013) :=
  ⟨sampleEnv_calibrate, by decide, by decide, by decide, by decide, by decide⟩

/-- Counterexample to C7 as stated: on the run `frozenEnv`, whose counter
never advances, calibration completes with a tick rate of zero. -/
theorem calibrate_rate_zero :
    calibrate TscTraits frozenEnv 200 ⟨0, 0⟩ =
      some (⟨0, 0, 0⟩,
        ⟨427, 224⟩) ∧
    ¬ (0 < (⟨0, 0, 0⟩ : TscImpl)._cpuClockRate) :=
  ⟨by decide!, by decide!⟩

/-- Witness of C7 (amended): the run `sampleEnv`. -/
theorem calibrate_rate_nonneg_witness :
    ((∀ q : ℚ, 0 ≤ q → 0 ≤ sampleEnv.round q) ∧
      calibrate TscTraits sampleEnv 200 ⟨0, 0⟩ =
        some (⟨10, 30, 3⟩,
          ⟨427, 224⟩)) ∧
    (0 ≤ (⟨10, 30, 3⟩ : TscImpl)._cpuClockRate ∧
      ((0 : Int) ≤ (⟨10, 30, 3⟩ : TscImpl)._rdtscCyclesCost ∧
        (⟨10, 30, 3⟩ : TscImpl)._rdtscCyclesCost < 2 ^ 64) ∧
      ((0 : Int) ≤ (⟨10, 30, 3⟩ : TscImpl)._realClockCyclesCost ∧
        (⟨10, 30, 3⟩ : TscImpl)._realClockCyclesCost < 2 ^ 64)) :=
  ⟨⟨fun _ h => h, sampleEnv_calibrate⟩,
    calibrate_rate_nonneg TscTraits sampleEnv 200 ⟨0, 0⟩ _ ⟨427, 224⟩ (fun _ h => h)
      sampleEnv_calibrate⟩

theorem steadyEnv_clock_advances : ∀ i, steadyEnv.clock i < steadyEnv.clock (i + 1) := by
  intro i
  simp only [steadyEnv]
  push_cast
  omega

/-- Witness of C8: the steady run on the default traits. -/
theorem calibrate_terminates_witness :
    (0 < TscTraits.kCostMeasurements ∧ 0 < TscTraits.kRateMeasurements ∧
      (∀ i, steadyEnv.clock i < steadyEnv.clock (i + 1)) ∧
      TscTraits.kCostMeasurements + TscTraits.kRateMeasurements +
        (TscTraits.kRateMeasureDuration * 1000000).toNat + 2 ≤ 20000114) ∧
    ∃ (l1 l2 : List Nat) (l3 : List ℚ) (k c : Nat) (r : ℚ) (s1 s2 s3 : Reads),
      rdtscCostLoop TscTraits steadyEnv 20000114 (now steadyEnv ⟨0, 0⟩).2
        (now steadyEnv ⟨0, 0⟩).1 [] = some (l1, s1) ∧
      l1.length = TscTraits.kCostMeasurements ∧
      calibrateRdtscCost TscTraits steadyEnv 20000114 ⟨0, 0⟩ = some (k, s1) ∧
      realClockCostLoop TscTraits steadyEnv k 20000114 s1 [] = some (l2, s2) ∧
      l2.length = TscTraits.kCostMeasurements ∧
      calibrateRealClockCost TscTraits steadyEnv k 20000114 s1 = some (c, s2) ∧
      rateLoop TscTraits steadyEnv k c 20000114 s2 [] = some (l3, s3) ∧
      l3.length = TscTraits.kRateMeasurements ∧
      calibrateCpuClockRate TscTraits steadyEnv k c 20000114 s2 = some (r, s3) ∧
      calibrate TscTraits steadyEnv 20000114 ⟨0, 0⟩ =
        some ({ _rdtscCyclesCost := k, _realClockCyclesCost := c, _cpuClockRate := r }, s3) :=
  ⟨⟨by decide, by decide, steadyEnv_clock_advances, by decide⟩,
    calibrate_terminates TscTraits steadyEnv ⟨0, 0⟩ (by decide) (by decide)
      steadyEnv_clock_advances 20000114 (by decide)⟩

/-- Counterexample to C9 as stated: in the run `stallEnv` the estimate
started at time 100 with counter reading 0 polls the time 100 again.  The
code leaves the inner loop without a sample, where polling on with the same
start would have produced the sample 3 at the next reading; the first sample
the code records is 2, measured from a fresh start. -/
theorem pollLoop_stale_reading_abandons :
    clockNow stallEnv ⟨0, 0⟩ = (100, ⟨0, 1⟩) ∧ now stallEnv ⟨0, 1⟩ = (0, ⟨1, 1⟩) ∧
    clockNow stallEnv ⟨1, 1⟩ = (100, ⟨1, 2⟩) ∧
    pollLoop TscTraits stallEnv 10 30 100 0 39 ⟨1, 1⟩ = some (none, ⟨1, 2⟩) ∧
    pollLoopContinuing TscTraits stallEnv 10 30 100 0 39 ⟨1, 1⟩ = some (some 3, ⟨2, 3⟩) ∧
    rateLoop TscTraits stallEnv 10 30 40 ⟨0, 0⟩ [] =
      some ([2, 3, 3, 3, 3, 3, 3, 3, 3, 3, 3], ⟨23, 25⟩) :=
  ⟨by decide, by decide, by decide, by decide!, by decide!, by decide!⟩

/-- Witness of C9 (amended): in the run `backstepEnv` the estimate started at
read 0 sees one reading inside the window and then a reading back at the
start time. -/
theorem rateLoop_restarts_on_stale_reading_witness :
    (([] : List ℚ).length < TscTraits.kRateMeasurements ∧
      (∀ i, 1 ≤ i → i ≤ 1 →
        backstepEnv.clock (⟨0, 0⟩ : Reads).clkIdx <
            backstepEnv.clock ((⟨0, 0⟩ : Reads).clkIdx + i) ∧
          backstepEnv.clock ((⟨0, 0⟩ : Reads).clkIdx + i) -
            backstepEnv.clock (⟨0, 0⟩ : Reads).clkIdx <
              TscTraits.kRateMeasureDuration * 1000000) ∧
      backstepEnv.clock ((⟨0, 0⟩ : Reads).clkIdx + 1 + 1) ≤
        backstepEnv.clock (⟨0, 0⟩ : Reads).clkIdx ∧
      1 < 5) ∧
    (pollLoop TscTraits backstepEnv 10 30 (backstepEnv.clock (⟨0, 0⟩ : Reads).clkIdx)
        (backstepEnv.tsc (⟨0, 0⟩ : Reads).tscIdx % 2 ^ 64) 5
        ⟨(⟨0, 0⟩ : Reads).tscIdx + 1, (⟨0, 0⟩ : Reads).clkIdx + 1⟩ =
          some (none, ⟨(⟨0, 0⟩ : Reads).tscIdx + 1, (⟨0, 0⟩ : Reads).clkIdx + 1 + 2⟩) ∧
      rateLoop TscTraits backstepEnv 10 30 (5 + 1) ⟨0, 0⟩ [] =
        rateLoop TscTraits backstepEnv 10 30 5
          ⟨(⟨0, 0⟩ : Reads).tscIdx + 1, (⟨0, 0⟩ : Reads).clkIdx + 1 + 2⟩ []) :=
  have hwin : ∀ i, 1 ≤ i → i ≤ 1 →
      backstepEnv.clock (⟨0, 0⟩ : Reads).clkIdx <
          backstepEnv.clock ((⟨0, 0⟩ : Reads).clkIdx + i) ∧
        backstepEnv.clock ((⟨0, 0⟩ : Reads).clkIdx + i) -
          backstepEnv.clock (⟨0, 0⟩ : Reads).clkIdx <
            TscTraits.kRateMeasureDuration * 1000000 := by
    intro i h1 h2
    have hi : i = 1 := by omega
    subst hi
    decide
  ⟨⟨by decide, hwin, by decide, by decide⟩,
    rateLoop_restarts_on_stale_reading TscTraits backstepEnv 10 30 ⟨0, 0⟩ [] 1 5
      (by decide) hwin (by decide) (by decide)⟩

/-- Counterexample to C3 as stated: with exact arithmetic, the rate `1 / 2`
and the duration `2 ^ 62`, the quotient is `2 ^ 63`, which the cast keeps but
the signed nanosecond count wraps to `-2 ^ 63`; the result `n` does not
satisfy `n ≤ d / r < n + 1`. -/
theorem toNanos_wraps_at_two_pow_63 :
    (0 : ℚ) < 1 / 2 ∧ (0 : Int) ≤ 2 ^ 62 ∧ (2 ^ 62 : Int) < 2 ^ 63 ∧
    toNanos steadyEnv ⟨10, 30, 1 / 2⟩ (2 ^ 62) = some (-2 ^ 63) ∧
    ¬ ((((-2 ^ 63 : Int) : ℚ) ≤ ((2 ^ 62 : Int) : ℚ) / (1 / 2)) ∧
      (((2 ^ 62 : Int) : ℚ) / (1 / 2) < ((-2 ^ 63 : Int) : ℚ) + 1)) := by
  refine ⟨by norm_num, by norm_num, by norm_num, ?_, by norm_num⟩
  decide!

/-- Witness of C3 (amended): exact arithmetic, rate 3, duration 10. -/
theorem toNanos_truncates_witness :
    ((0 : ℚ) < (⟨10, 30, 3⟩ : TscImpl)._cpuClockRate ∧
      -1 < steadyEnv.round (steadyEnv.round ((10 : Int) : ℚ) /
        (⟨10, 30, 3⟩ : TscImpl)._cpuClockRate) ∧
      steadyEnv.round (steadyEnv.round ((10 : Int) : ℚ) /
        (⟨10, 30, 3⟩ : TscImpl)._cpuClockRate) < 2 ^ 63) ∧
    ∃ n : Int, toNanos steadyEnv ⟨10, 30, 3⟩ 10 = some n ∧
      n = (if 0 ≤ steadyEnv.round (steadyEnv.round ((10 : Int) : ℚ) / (3 : ℚ))
        then ⌊steadyEnv.round (steadyEnv.round ((10 : Int) : ℚ) / (3 : ℚ))⌋
        else ⌈steadyEnv.round (steadyEnv.round ((10 : Int) : ℚ) / (3 : ℚ))⌉) ∧
      (0 ≤ steadyEnv.round (steadyEnv.round ((10 : Int) : ℚ) / (3 : ℚ)) →
        (n : ℚ) ≤ steadyEnv.round (steadyEnv.round ((10 : Int) : ℚ) / (3 : ℚ)) ∧
        steadyEnv.round (steadyEnv.round ((10 : Int) : ℚ) / (3 : ℚ)) < n + 1) ∧
      ((∀ q, steadyEnv.round q = q) → 0 ≤ (10 : Int) →
        (n : ℚ) ≤ ((10 : Int) : ℚ) / (3 : ℚ) ∧ ((10 : Int) : ℚ) / (3 : ℚ) < n + 1) :=
  ⟨⟨by norm_num, by norm_num [steadyEnv], by norm_num [steadyEnv]⟩,
    toNanos_truncates steadyEnv ⟨10, 30, 3⟩ 10 (by norm_num) (by norm_num [steadyEnv]) (by norm_num [steadyEnv])⟩

end tsc
